import Mathlib

/-!
# Verification of the Wave.AI synchronization core

Shallow embedding of the checkpoint ledger (`src/core/version_control.py`),
the pull operation (`src/core/git_sync.py`), the retry/backoff policy
(`src/core/sync_engine.py`) and the conflict-marker utilities
(`src/utils/conflict_handler.py`), together with proofs of the behavioural
properties stated in the specification.

Machine integers are modelled as `Int`/`Nat` (Python integers are unbounded,
so no wrap-around is involved).  External effects (the git backend, the
filesystem) are modelled as explicit parameters: the HEAD commit reported by
the status query, the success of a reset, the outcome of a network pull.
Wall-clock timestamps are not modelled; they are opaque metadata that none of
the verified properties depend on.
-/

/-- Python list slice `l[:k]` for an integer bound `k`; a negative bound
counts from the end of the list (`l[:-m]` keeps all but the last `m`
elements, empty when `m ≥ len(l)`). -/
def pyTake {α : Type} (l : List α) (k : Int) : List α :=
  if 0 ≤ k then l.take k.toNat else l.take (l.length - (-k).toNat)

/-- Python list slice `l[-m:]`: the last `m` elements — except that `m = 0`
yields the whole list (`l[-0:]` is `l[0:]`). -/
def pyTakeLast {α : Type} (l : List α) (m : Nat) : List α :=
  if m = 0 then l else l.drop (l.length - m)

namespace VersionControl

/-- The HEAD commit information used by `VersionControl.create_checkpoint`,
as assembled by `GitSync.get_status` (`hash` is the 7-character short hash,
`full_hash` the full hexsha). -/
structure CommitInfo where
  hash : String
  full_hash : String
  message : String
  author : String
  deriving DecidableEq, Repr

/-- A ledger entry, from `VersionControl.create_checkpoint` (the
time-valued `timestamp` field is omitted: no verified property reads it). -/
structure Checkpoint where
  id : Nat
  commit_hash : String
  full_hash : String
  description : String
  commit_message : String
  author : String
  deriving DecidableEq, Repr

/-- The mutable state of a `VersionControl` object: the in-memory ledger,
the cursor, and the ledger as last written to the history file by
`_save_history` (`saved_history`).  `current_position` is a Python int and
is `-1` for an empty ledger, hence `Int`. -/
structure VCState where
  history : List Checkpoint
  current_position : Int
  saved_history : List Checkpoint
  deriving DecidableEq, Repr

/-- The checkpoint record built at the top of `create_checkpoint`: its `id`
is the length of the ledger *before* any truncation. -/
def mkCheckpoint (s : VCState) (c : CommitInfo) (description : String) : Checkpoint :=
  { id := s.history.length
    commit_hash := c.hash
    full_hash := c.full_hash
    description := description
    commit_message := c.message
    author := c.author }

/-- Result of `create_checkpoint`: the new state, the success flag and the
returned checkpoint id (`none` on failure). -/
structure CheckpointResult where
  state : VCState
  success : Bool
  checkpoint_id : Option Nat
  deriving DecidableEq, Repr

/-- `VersionControl.create_checkpoint` (version_control.py lines 45-86).
`head` is the HEAD commit reported by `git_sync.get_status`, `none` when no
commit exists (the "No commits found" failure path).  On success the ledger
is truncated after `current_position` when the cursor is not at the tail,
the new checkpoint is appended, the cursor moves to the new tail and the
ledger is saved. -/
def create_checkpoint (s : VCState) (head : Option CommitInfo) (description : String) :
    CheckpointResult :=
  match head with
  | none => ⟨s, false, none⟩
  | some c =>
    let checkpoint := mkCheckpoint s c description
    let hist1 :=
      if s.current_position < (s.history.length : Int) - 1 then
        pyTake s.history (s.current_position + 1)
      else s.history
    let hist2 := hist1 ++ [checkpoint]
    ⟨{ history := hist2
       current_position := (hist2.length : Int) - 1
       saved_history := hist2 }, true, some checkpoint.id⟩

/-- Result of `revert`: the new state, the success flag, and the full hash
passed to `git_sync.reset_to_commit` (`none` when no reset was attempted). -/
structure RevertResult where
  state : VCState
  success : Bool
  reset_target : Option String
  deriving DecidableEq, Repr

/-- `VersionControl.revert` (version_control.py lines 88-125).  `head` is
the HEAD commit seen by the safety checkpoint, `resetOk` the outcome of
`git_sync.reset_to_commit`.  The overall `none` models the uncaught
`IndexError` when `history[new_position]` is out of range (that indexing
happens before the `try` block).  The target checkpoint is read *before*
the safety checkpoint is created, and the return value of
`create_checkpoint` is ignored, exactly as in the source. -/
def revert (s : VCState) (head : Option CommitInfo) (resetOk : Bool) (steps : Int) :
    Option RevertResult :=
  if s.history = [] then some ⟨s, false, none⟩
  else
    let new_position := s.current_position - steps
    if new_position < 0 then some ⟨s, false, none⟩
    else
      match s.history[new_position.toNat]? with
      | none => none
      | some target =>
        let s1 := (create_checkpoint s head "Safety checkpoint before revert").state
        if resetOk then
          some ⟨{ s1 with current_position := new_position }, true, some target.full_hash⟩
        else
          some ⟨s1, false, some target.full_hash⟩

/-- `VersionControl.cleanup_old_checkpoints` (version_control.py lines
230-248).  Acts only when the ledger is strictly longer than
`max_checkpoints`; it then keeps `history[-max_checkpoints:]`, clamps the
cursor with `max(0, pos - removed)`, renumbers ids from 0 and saves. -/
def cleanup_old_checkpoints (s : VCState) (max_checkpoints : Nat) : VCState :=
  if max_checkpoints < s.history.length then
    let removed_count := s.history.length - max_checkpoints
    let hist := pyTakeLast s.history max_checkpoints
    let hist2 := hist.enum.map fun p => { p.2 with id := p.1 }
    { history := hist2
      current_position := max 0 (s.current_position - (removed_count : Int))
      saved_history := hist2 }
  else s

end VersionControl

namespace VersionControl

/-- Unfolding lemma for a successful `create_checkpoint`: with a cursor in
the documented range `[-1, length-1]` (or beyond the tail), the new ledger
is the old one cut after the cursor with the fresh checkpoint appended, the
cursor is at the new tail and the ledger is saved. -/
theorem create_checkpoint_state (s : VCState) (c : CommitInfo) (d : String)
    (h : -1 ≤ s.current_position) :
    (create_checkpoint s (some c) d).state =
      { history := s.history.take (s.current_position + 1).toNat ++ [mkCheckpoint s c d]
        current_position :=
          ((s.history.take (s.current_position + 1).toNat ++ [mkCheckpoint s c d]).length : Int) - 1
        saved_history := s.history.take (s.current_position + 1).toNat ++ [mkCheckpoint s c d] } := by
  unfold create_checkpoint
  by_cases hcut : s.current_position < (s.history.length : Int) - 1
  · have h0 : (0 : Int) ≤ s.current_position + 1 := by omega
    simp only [hcut, if_true, pyTake, h0, if_pos]
  · have hlen : s.history.length ≤ (s.current_position + 1).toNat := by omega
    simp only [hcut, if_false, List.take_of_length_le hlen]

end VersionControl

namespace VersionControl

/-- C3: for every ledger state with the cursor in its documented range and a
HEAD commit present, `create_checkpoint` succeeds, leaves the ledger equal to
the old entries up to and including `current_position` followed by the one
new checkpoint (so every entry after the old cursor is discarded), sets
`current_position` to `length - 1` and persists the result. -/
theorem create_checkpoint_truncate_append_spec (s : VCState) (c : CommitInfo) (d : String)
    (h : -1 ≤ s.current_position) :
    (create_checkpoint s (some c) d).success = true ∧
    (create_checkpoint s (some c) d).state.history =
      s.history.take (s.current_position + 1).toNat ++ [mkCheckpoint s c d] ∧
    (create_checkpoint s (some c) d).state.current_position =
      ((create_checkpoint s (some c) d).state.history.length : Int) - 1 ∧
    (create_checkpoint s (some c) d).state.saved_history =
      (create_checkpoint s (some c) d).state.history := by
  refine ⟨?_, ?_, ?_, ?_⟩
  · unfold create_checkpoint; simp
  · rw [create_checkpoint_state s c d h]
  · rw [create_checkpoint_state s c d h]
  · rw [create_checkpoint_state s c d h]

/-- Witness for C3 on the concrete 3-entry ledger of the specification
scenario with the cursor at 1: entry 2 is discarded and the new checkpoint
appended. -/
theorem create_checkpoint_truncate_append_spec_witness :
    (create_checkpoint
        ⟨[⟨0, "a1b2c3d", "a1b2c3d", "", "m", "a"⟩,
          ⟨1, "e4f5g6h", "e4f5g6h", "", "m", "a"⟩,
          ⟨2, "i7j8k9l", "i7j8k9l", "", "m", "a"⟩], 1, []⟩
        (some ⟨"n0t4h4s", "n0t4h4s", "m", "a"⟩) "d").state.history =
      [⟨0, "a1b2c3d", "a1b2c3d", "", "m", "a"⟩,
        ⟨1, "e4f5g6h", "e4f5g6h", "", "m", "a"⟩,
        ⟨3, "n0t4h4s", "n0t4h4s", "d", "m", "a"⟩] :=
  (create_checkpoint_truncate_append_spec
    ⟨[⟨0, "a1b2c3d", "a1b2c3d", "", "m", "a"⟩,
      ⟨1, "e4f5g6h", "e4f5g6h", "", "m", "a"⟩,
      ⟨2, "i7j8k9l", "i7j8k9l", "", "m", "a"⟩], 1, []⟩
    ⟨"n0t4h4s", "n0t4h4s", "m", "a"⟩ "d" (by decide)).2.1

/-- C8: `revert(n)` with `n > current_position` (which subsumes the empty
ledger, whose cursor is `-1`) fails and performs no mutation at all: the
ledger, the cursor and the persisted store are returned exactly as they
were, no safety checkpoint is created and no reset is attempted. -/
theorem revert_too_far_no_mutation (s : VCState) (head : Option CommitInfo)
    (resetOk : Bool) (steps : Int) (h : s.current_position < steps) :
    revert s head resetOk steps = some ⟨s, false, none⟩ := by
  unfold revert
  by_cases he : s.history = []
  · simp [he]
  · have hneg : s.current_position - steps < 0 := by omega
    simp [he, hneg]

/-- Witness for C8: on the empty ledger (cursor `-1`), `revert 1` fails and
returns the state unchanged. -/
theorem revert_too_far_no_mutation_witness :
    revert ⟨[], -1, []⟩ none false 1 = some ⟨⟨[], -1, []⟩, false, none⟩ :=
  revert_too_far_no_mutation ⟨[], -1, []⟩ none false 1 (by decide)

/-- Core unfolding of a reverting `revert` run (`1 ≤ n ≤ current_position`,
cursor within the ledger, HEAD present): the target is the entry that sat at
index `current_position - n` before the safety checkpoint was appended, the
ledger becomes the old entries up to the cursor plus the safety checkpoint,
and the final cursor depends on whether the hard reset succeeded. -/
theorem revert_run (s : VCState) (c : CommitInfo) (resetOk : Bool) (n : Int)
    (h1 : 1 ≤ n) (h2 : n ≤ s.current_position)
    (h3 : s.current_position < (s.history.length : Int)) :
    ∃ target, s.history[(s.current_position - n).toNat]? = some target ∧
      revert s (some c) resetOk n =
        some ⟨{ history := s.history.take (s.current_position + 1).toNat ++
                  [mkCheckpoint s c "Safety checkpoint before revert"]
                current_position :=
                  if resetOk then s.current_position - n
                  else ((s.history.take (s.current_position + 1).toNat ++
                    [mkCheckpoint s c "Safety checkpoint before revert"]).length : Int) - 1
                saved_history := s.history.take (s.current_position + 1).toNat ++
                  [mkCheckpoint s c "Safety checkpoint before revert"] },
              resetOk, some target.full_hash⟩ := by
  have hne : ¬ s.history = [] := by
    intro he
    rw [he] at h3
    simp at h3
    omega
  have hpos : ¬ (s.current_position - n < 0) := by omega
  have hidx : (s.current_position - n).toNat < s.history.length := by omega
  refine ⟨s.history[(s.current_position - n).toNat], List.getElem?_eq_getElem hidx, ?_⟩
  unfold revert
  simp only [hne, if_false, hpos, if_false, List.getElem?_eq_getElem hidx]
  rw [create_checkpoint_state s c _ (by omega)]
  cases resetOk <;> simp

end VersionControl

namespace VersionControl

/-- C1: a successful `revert n` (with `1 ≤ n ≤ current_position` and the
cursor inside the ledger) first appends the safety checkpoint built by
`create_checkpoint` — which truncates everything after the cursor and
references the current HEAD — then sets the cursor to the pre-call position
minus `n`, and hard-resets to the full hash of the entry that was at that
index before the safety checkpoint was appended. -/
theorem revert_success_spec (s : VCState) (c : CommitInfo) (n : Int)
    (h1 : 1 ≤ n) (h2 : n ≤ s.current_position)
    (h3 : s.current_position < (s.history.length : Int)) :
    ∃ target, s.history[(s.current_position - n).toNat]? = some target ∧
      revert s (some c) true n =
        some ⟨{ history := s.history.take (s.current_position + 1).toNat ++
                  [mkCheckpoint s c "Safety checkpoint before revert"]
                current_position := s.current_position - n
                saved_history := s.history.take (s.current_position + 1).toNat ++
                  [mkCheckpoint s c "Safety checkpoint before revert"] },
              true, some target.full_hash⟩ := by
  obtain ⟨target, ht, hr⟩ := revert_run s c true n h1 h2 h3
  exact ⟨target, ht, by simpa using hr⟩

/-- C10: when the hard reset fails (with `1 ≤ n ≤ current_position` and the
cursor inside the ledger), `revert n` reports failure but the ledger has
already been mutated and persisted: forward entries are truncated, the
safety checkpoint is appended, and the cursor sits at the new tail
(`length - 1`), which differs from the pre-call position. -/
theorem revert_reset_failure_mutates (s : VCState) (c : CommitInfo) (n : Int)
    (h1 : 1 ≤ n) (h2 : n ≤ s.current_position)
    (h3 : s.current_position < (s.history.length : Int)) :
    ∃ target, s.history[(s.current_position - n).toNat]? = some target ∧
      revert s (some c) false n =
        some ⟨{ history := s.history.take (s.current_position + 1).toNat ++
                  [mkCheckpoint s c "Safety checkpoint before revert"]
                current_position :=
                  ((s.history.take (s.current_position + 1).toNat ++
                    [mkCheckpoint s c "Safety checkpoint before revert"]).length : Int) - 1
                saved_history := s.history.take (s.current_position + 1).toNat ++
                  [mkCheckpoint s c "Safety checkpoint before revert"] },
              false, some target.full_hash⟩ ∧
      ((s.history.take (s.current_position + 1).toNat ++
          [mkCheckpoint s c "Safety checkpoint before revert"]).length : Int) - 1 ≠
        s.current_position := by
  obtain ⟨target, ht, hr⟩ := revert_run s c false n h1 h2 h3
  refine ⟨target, ht, by simpa using hr, ?_⟩
  have htake : (s.history.take (s.current_position + 1).toNat).length =
      (s.current_position + 1).toNat := by
    rw [List.length_take]
    omega
  simp only [List.length_append, htake, List.length_singleton]
  omega

/-- The three-entry ledger of the specification scenario
(`[{id:0,hash:a1b2c3d},{id:1,hash:e4f5g6h},{id:2,hash:i7j8k9l}]`,
cursor at 2, persisted). -/
def specLedger : VCState :=
  ⟨[⟨0, "a1b2c3d", "a1b2c3d", "", "m", "a"⟩,
    ⟨1, "e4f5g6h", "e4f5g6h", "", "m", "a"⟩,
    ⟨2, "i7j8k9l", "i7j8k9l", "", "m", "a"⟩], 2,
   [⟨0, "a1b2c3d", "a1b2c3d", "", "m", "a"⟩,
    ⟨1, "e4f5g6h", "e4f5g6h", "", "m", "a"⟩,
    ⟨2, "i7j8k9l", "i7j8k9l", "", "m", "a"⟩]⟩

/-- The HEAD commit of the specification scenario (entry 2's commit). -/
def specHead : CommitInfo := ⟨"i7j8k9l", "i7j8k9l", "m", "a"⟩

/-- Witness for C1, the specification scenario: `revert 1` from the 3-entry
ledger appends a safety checkpoint with id 3 referencing `i7j8k9l`, sets the
cursor to 1 and hard-resets to `e4f5g6h`. -/
theorem revert_success_spec_witness :
    revert specLedger (some specHead) true 1 =
      some ⟨⟨[⟨0, "a1b2c3d", "a1b2c3d", "", "m", "a"⟩,
              ⟨1, "e4f5g6h", "e4f5g6h", "", "m", "a"⟩,
              ⟨2, "i7j8k9l", "i7j8k9l", "", "m", "a"⟩,
              ⟨3, "i7j8k9l", "i7j8k9l", "Safety checkpoint before revert", "m", "a"⟩], 1,
             [⟨0, "a1b2c3d", "a1b2c3d", "", "m", "a"⟩,
              ⟨1, "e4f5g6h", "e4f5g6h", "", "m", "a"⟩,
              ⟨2, "i7j8k9l", "i7j8k9l", "", "m", "a"⟩,
              ⟨3, "i7j8k9l", "i7j8k9l", "Safety checkpoint before revert", "m", "a"⟩]⟩,
        true, some "e4f5g6h"⟩ := by
  obtain ⟨target, ht, hr⟩ :=
    revert_success_spec specLedger specHead 1 (by decide) (by decide) (by decide)
  have hts : target = ⟨1, "e4f5g6h", "e4f5g6h", "", "m", "a"⟩ := by
    have h2 : specLedger.history[((2 : Int) - 1).toNat]? =
        some ⟨1, "e4f5g6h", "e4f5g6h", "", "m", "a"⟩ := by rfl
    exact Option.some_injective _ (ht.symm.trans h2)
  rw [hr, hts]
  rfl

/-- Witness for C10: same scenario but the hard reset fails; the ledger and
the persisted store already contain the safety checkpoint, and the cursor is
at the new tail, 3, not at the pre-call 2. -/
theorem revert_reset_failure_mutates_witness :
    revert specLedger (some specHead) false 1 =
      some ⟨⟨[⟨0, "a1b2c3d", "a1b2c3d", "", "m", "a"⟩,
              ⟨1, "e4f5g6h", "e4f5g6h", "", "m", "a"⟩,
              ⟨2, "i7j8k9l", "i7j8k9l", "", "m", "a"⟩,
              ⟨3, "i7j8k9l", "i7j8k9l", "Safety checkpoint before revert", "m", "a"⟩], 3,
             [⟨0, "a1b2c3d", "a1b2c3d", "", "m", "a"⟩,
              ⟨1, "e4f5g6h", "e4f5g6h", "", "m", "a"⟩,
              ⟨2, "i7j8k9l", "i7j8k9l", "", "m", "a"⟩,
              ⟨3, "i7j8k9l", "i7j8k9l", "Safety checkpoint before revert", "m", "a"⟩]⟩,
        false, some "e4f5g6h"⟩ := by
  obtain ⟨target, ht, hr, _⟩ :=
    revert_reset_failure_mutates specLedger specHead 1 (by decide) (by decide) (by decide)
  have hts : target = ⟨1, "e4f5g6h", "e4f5g6h", "", "m", "a"⟩ := by
    have h2 : specLedger.history[((2 : Int) - 1).toNat]? =
        some ⟨1, "e4f5g6h", "e4f5g6h", "", "m", "a"⟩ := by rfl
    exact Option.some_injective _ (ht.symm.trans h2)
  rw [hr, hts]
  rfl

/-- Counterexample for C2: `create_checkpoint` computes the new id as the
ledger length *before* truncating forward history.  On a 3-entry ledger with
the cursor at 1, the appended checkpoint lands at index 2 but carries id 3,
so ids are `[0, 1, 3]` and not `[0, 1, 2]` — the id of the appended entry
does not equal its index when forward entries are truncated.  (Such cursor
positions are reachable: any `revert` leaves the cursor below the tail.) -/
theorem create_checkpoint_id_counterexample :
    (create_checkpoint
        ⟨[⟨0, "a", "a", "", "", ""⟩, ⟨1, "b", "b", "", "", ""⟩, ⟨2, "c", "c", "", "", ""⟩],
         1, []⟩ (some ⟨"h", "h", "", ""⟩) "d").state.history.map Checkpoint.id = [0, 1, 3] ∧
    ¬ ((create_checkpoint
        ⟨[⟨0, "a", "a", "", "", ""⟩, ⟨1, "b", "b", "", "", ""⟩, ⟨2, "c", "c", "", "", ""⟩],
         1, []⟩ (some ⟨"h", "h", "", ""⟩) "d").state.history.map Checkpoint.id =
      List.range (create_checkpoint
        ⟨[⟨0, "a", "a", "", "", ""⟩, ⟨1, "b", "b", "", "", ""⟩, ⟨2, "c", "c", "", "", ""⟩],
         1, []⟩ (some ⟨"h", "h", "", ""⟩) "d").state.history.length) := by
  decide

/-- C2 amended: the checkpoint appended by `create_checkpoint` always
carries id = length of the ledger *before* the call (before truncation); it
equals the entry's index exactly when the cursor was at (or past) the tail,
i.e. when no forward entries were truncated. -/
theorem create_checkpoint_id_spec (s : VCState) (c : CommitInfo) (d : String) :
    (create_checkpoint s (some c) d).state.history.getLast? = some (mkCheckpoint s c d) ∧
    (mkCheckpoint s c d).id = s.history.length ∧
    ((s.history.length : Int) - 1 ≤ s.current_position →
      (create_checkpoint s (some c) d).state.history.length = s.history.length + 1 ∧
      (mkCheckpoint s c d).id = (create_checkpoint s (some c) d).state.history.length - 1) := by
  refine ⟨?_, rfl, ?_⟩
  · unfold create_checkpoint
    simp
  · intro h
    have hcut : ¬ (s.current_position < (s.history.length : Int) - 1) := by omega
    unfold create_checkpoint
    simp [hcut, mkCheckpoint]

/-- Witness for C2 amended: appending to a 1-entry ledger with the cursor at
the tail yields a 2-entry ledger whose new entry's id, 1, is its index. -/
theorem create_checkpoint_id_spec_witness :
    (create_checkpoint ⟨[⟨0, "a", "a", "", "", ""⟩], 0, []⟩
        (some ⟨"h", "h", "", ""⟩) "d").state.history.length =
      (⟨[⟨0, "a", "a", "", "", ""⟩], 0, []⟩ : VCState).history.length + 1 ∧
    (mkCheckpoint ⟨[⟨0, "a", "a", "", "", ""⟩], 0, []⟩ ⟨"h", "h", "", ""⟩ "d").id =
      (create_checkpoint ⟨[⟨0, "a", "a", "", "", ""⟩], 0, []⟩
        (some ⟨"h", "h", "", ""⟩) "d").state.history.length - 1 :=
  (create_checkpoint_id_spec ⟨[⟨0, "a", "a", "", "", ""⟩], 0, []⟩
    ⟨"h", "h", "", ""⟩ "d").2.2 (by decide)

/-- Counterexample for C6: when the ledger is not longer than `max`,
`cleanup_old_checkpoints` is a no-op — it neither renumbers ids nor clamps
the cursor.  A 2-entry ledger with ids `[0, 2]` (reachable: a
`create_checkpoint` after a `revert` appends an id skipping the truncated
entries) keeps its non-contiguous ids, refuting "contiguous ids from 0...
also when length <= max". -/
theorem cleanup_old_checkpoints_counterexample :
    cleanup_old_checkpoints
        ⟨[⟨0, "a", "a", "", "", ""⟩, ⟨2, "b", "b", "", "", ""⟩], 1,
         [⟨0, "a", "a", "", "", ""⟩, ⟨2, "b", "b", "", "", ""⟩]⟩ 5 =
      ⟨[⟨0, "a", "a", "", "", ""⟩, ⟨2, "b", "b", "", "", ""⟩], 1,
       [⟨0, "a", "a", "", "", ""⟩, ⟨2, "b", "b", "", "", ""⟩]⟩ ∧
    ¬ ((cleanup_old_checkpoints
        ⟨[⟨0, "a", "a", "", "", ""⟩, ⟨2, "b", "b", "", "", ""⟩], 1,
         [⟨0, "a", "a", "", "", ""⟩, ⟨2, "b", "b", "", "", ""⟩]⟩ 5).history.map Checkpoint.id =
      List.range (cleanup_old_checkpoints
        ⟨[⟨0, "a", "a", "", "", ""⟩, ⟨2, "b", "b", "", "", ""⟩], 1,
         [⟨0, "a", "a", "", "", ""⟩, ⟨2, "b", "b", "", "", ""⟩]⟩ 5).history.length) := by
  decide

/-- C6 amended: for `1 ≤ max < length`, cleanup keeps exactly `max` entries,
renumbers their ids contiguously from 0 and sets the cursor to
`max(0, old - removed)`, which is inside the new range whenever the old
cursor was inside the old one.  For `length ≤ max` the state is returned
unchanged, so ids and cursor keep whatever values they had.  (For `max = 0`
the Python slice `history[-0:]` keeps the whole list: nothing is removed.) -/
theorem cleanup_old_checkpoints_spec (s : VCState) (m : Nat) :
    (s.history.length ≤ m → cleanup_old_checkpoints s m = s) ∧
    (1 ≤ m → m < s.history.length →
      (cleanup_old_checkpoints s m).history.length = m ∧
      (cleanup_old_checkpoints s m).history.map Checkpoint.id = List.range m ∧
      (cleanup_old_checkpoints s m).current_position =
        max 0 (s.current_position - ((s.history.length - m : Nat) : Int)) ∧
      (0 ≤ s.current_position → s.current_position < (s.history.length : Int) →
        0 ≤ (cleanup_old_checkpoints s m).current_position ∧
        (cleanup_old_checkpoints s m).current_position < (m : Int))) ∧
    (0 < s.history.length → (cleanup_old_checkpoints s 0).history.length = s.history.length) := by
  have hstate : ∀ m' : Nat, m' < s.history.length →
      cleanup_old_checkpoints s m' =
        { history := (pyTakeLast s.history m').enum.map fun p => { p.2 with id := p.1 }
          current_position :=
            max 0 (s.current_position - ((s.history.length - m' : Nat) : Int))
          saved_history :=
            (pyTakeLast s.history m').enum.map fun p => { p.2 with id := p.1 } } := by
    intro m' hm'
    unfold cleanup_old_checkpoints
    simp [hm']
  refine ⟨?_, ?_, ?_⟩
  · intro hle
    unfold cleanup_old_checkpoints
    simp [Nat.not_lt.mpr hle]
  · intro hm1 hm2
    have hm0 : ¬ m = 0 := by omega
    have hlen : (pyTakeLast s.history m).length = m := by
      unfold pyTakeLast
      simp only [hm0, if_false, List.length_drop]
      omega
    rw [hstate m hm2]
    refine ⟨by simp [hlen], ?_, rfl, ?_⟩
    · simp only [List.map_map]
      have hcomp : (Checkpoint.id ∘ fun p : Nat × Checkpoint => { p.2 with id := p.1 }) =
          Prod.fst := rfl
      rw [hcomp, List.enum_map_fst, hlen]
    · intro hp0 hp1
      simp only
      omega
  · intro hpos
    rw [hstate 0 hpos]
    simp [pyTakeLast]

/-- Witness for C6 amended: trimming a 5-entry ledger (cursor 4) to 3 keeps
3 entries with ids 0,1,2 and cursor 2. -/
theorem cleanup_old_checkpoints_spec_witness :
    (cleanup_old_checkpoints
        ⟨[⟨0, "a", "a", "", "", ""⟩, ⟨1, "b", "b", "", "", ""⟩, ⟨2, "c", "c", "", "", ""⟩,
          ⟨3, "d", "d", "", "", ""⟩, ⟨4, "e", "e", "", "", ""⟩], 4, []⟩ 3).history.length = 3 ∧
    (cleanup_old_checkpoints
        ⟨[⟨0, "a", "a", "", "", ""⟩, ⟨1, "b", "b", "", "", ""⟩, ⟨2, "c", "c", "", "", ""⟩,
          ⟨3, "d", "d", "", "", ""⟩, ⟨4, "e", "e", "", "", ""⟩], 4, []⟩ 3).history.map
      Checkpoint.id = List.range 3 :=
  ⟨((cleanup_old_checkpoints_spec
      ⟨[⟨0, "a", "a", "", "", ""⟩, ⟨1, "b", "b", "", "", ""⟩, ⟨2, "c", "c", "", "", ""⟩,
        ⟨3, "d", "d", "", "", ""⟩, ⟨4, "e", "e", "", "", ""⟩], 4, []⟩ 3).2.1
      (by decide) (by decide)).1,
   ((cleanup_old_checkpoints_spec
      ⟨[⟨0, "a", "a", "", "", ""⟩, ⟨1, "b", "b", "", "", ""⟩, ⟨2, "c", "c", "", "", ""⟩,
        ⟨3, "d", "d", "", "", ""⟩, ⟨4, "e", "e", "", "", ""⟩], 4, []⟩ 3).2.1
      (by decide) (by decide)).2.1⟩

end VersionControl

namespace GitSync

/-- The repository state observed by `GitSync.pull`: whether the working
copy is dirty (`repo.is_dirty()`, tracked changes) and how many entries the
stash list holds (`git stash list` is truthy iff this is non-zero). -/
structure PullState where
  dirty : Bool
  stash_count : Nat
  deriving DecidableEq, Repr

/-- The three outcomes `GitSync.pull` can report (git_sync.py lines
133-169): success, the distinct "Conflict detected after pull" failure from
a stash-pop conflict, and a GitCommandError from the pull itself. -/
inductive PullResult where
  | success
  | conflictAfterPull
  | gitError
  deriving DecidableEq, Repr

/-- Result of `pull`: the final repository state, the reported result, and
whether this call created a stash (`stash save` ran) and whether it popped
one successfully (`stash pop` ran without conflict). -/
structure PullOutcome where
  state : PullState
  result : PullResult
  stash_created : Bool
  stash_popped : Bool
  deriving DecidableEq, Repr

/-- `GitSync.pull` (git_sync.py lines 133-169).  `pull_ok` models whether
`origin.pull(self.branch)` succeeds, `pop_conflict` whether `git stash pop`
raises `GitCommandError`.  Note the pop condition is the truthiness of
`git stash list` — any non-empty stash list, not just a stash created by
this call.  A successful pop restores local changes, leaving the working
copy dirty; a conflicted pop leaves the stash entry in place. -/
def pull (s : PullState) (pull_ok : Bool) (pop_conflict : Bool) : PullOutcome :=
  let created := s.dirty
  let s1 : PullState := if s.dirty then ⟨false, s.stash_count + 1⟩ else s
  if ¬ pull_ok then ⟨s1, .gitError, created, false⟩
  else if s1.stash_count ≠ 0 then
    if pop_conflict then ⟨s1, .conflictAfterPull, created, false⟩
    else ⟨⟨true, s1.stash_count - 1⟩, .success, created, true⟩
  else ⟨s1, .success, created, false⟩

/-- Counterexample for C4: a pull on a clean working copy (`dirty = false`)
with one pre-existing stash entry creates no stash, yet after the successful
pull it pops that pre-existing stash — refuting "pops a stash afterwards if
and only if this pull created one" and "a pull on a clean working copy never
pops a pre-existing stash". -/
theorem pull_pops_preexisting_stash_counterexample :
    (pull ⟨false, 1⟩ true false).stash_created = false ∧
    (pull ⟨false, 1⟩ true false).stash_popped = true ∧
    (pull ⟨false, 1⟩ true false).result = PullResult.success ∧
    (pull ⟨false, 1⟩ true false).state.stash_count = 0 := by
  decide

/-- C4 amended: `pull` stashes exactly when the working copy is dirty; after
a successful pull it attempts a pop whenever the stash list is non-empty —
whether this call created the stash or it pre-existed — so a pull on a clean
working copy with a pre-existing stash pops that stash; a conflicted pop is
reported as the distinct `conflictAfterPull` failure; a failed pull reports
`gitError` and pops nothing (any stash it created stays). -/
theorem pull_stash_spec (s : PullState) (pull_ok pop_conflict : Bool) :
    (pull s pull_ok pop_conflict).stash_created = s.dirty ∧
    (pull_ok = true → pop_conflict = false →
      ((pull s true false).stash_popped = true ↔ (s.dirty = true ∨ s.stash_count ≠ 0))) ∧
    (pull_ok = true → pop_conflict = true → (s.dirty = true ∨ s.stash_count ≠ 0) →
      (pull s true true).result = PullResult.conflictAfterPull ∧
      (pull s true true).stash_popped = false) ∧
    (pull_ok = false →
      (pull s false pop_conflict).result = PullResult.gitError ∧
      (pull s false pop_conflict).stash_popped = false) ∧
    (s.dirty = false → s.stash_count = 0 →
      pull s true pop_conflict = ⟨s, PullResult.success, false, false⟩) := by
  obtain ⟨d, k⟩ := s
  refine ⟨?_, ?_, ?_, ?_, ?_⟩
  · cases d <;> cases pull_ok <;> cases pop_conflict <;> by_cases hk : k = 0 <;>
      simp [pull, hk]
  · intro _ _
    cases d <;> by_cases hk : k = 0 <;> simp [pull, hk]
  · intro _ _ h
    cases d <;> by_cases hk : k = 0 <;> simp [pull, hk] <;> simp [hk] at h
  · intro _
    cases d <;> by_cases hk : k = 0 <;> simp [pull, hk]
  · intro hd hk
    subst hd hk
    simp [pull]

/-- Witness for C4 amended, on the counterexample input: a clean working
copy with one pre-existing stash pops it after a successful pull. -/
theorem pull_stash_spec_witness :
    (pull ⟨false, 1⟩ true false).stash_popped = true ↔
      ((false = true) ∨ (1 : Nat) ≠ 0) :=
  (pull_stash_spec ⟨false, 1⟩ true false).2.1 rfl rfl

end GitSync

namespace SyncEngine

/-- The retry/backoff state of `SyncEngine` (sync_engine.py lines 41-44):
the consecutive-failure counter and the current delay in seconds. -/
structure RetryState where
  pull_retry_count : Nat
  retry_delay : Nat
  deriving DecidableEq, Repr

/-- `self.max_retries = 3` (sync_engine.py line 42). -/
def max_retries : Nat := 3

/-- `self.max_retry_delay = 300` (sync_engine.py line 44). -/
def max_retry_delay : Nat := 300

/-- The initial retry state: counter 0, delay 30 s (lines 41, 43). -/
def initRetryState : RetryState := ⟨0, 30⟩

/-- The failure branch of `SyncEngine._check_and_pull` (lines 311-320):
increment the counter; once it reaches `max_retries`, double the delay
(capped at `max_retry_delay`) and reset the counter to 0. -/
def onPullFailure (s : RetryState) : RetryState :=
  if max_retries ≤ s.pull_retry_count + 1 then ⟨0, min (s.retry_delay * 2) max_retry_delay⟩
  else ⟨s.pull_retry_count + 1, s.retry_delay⟩

/-- The success branch of `SyncEngine._check_and_pull` (line 305): reset the
counter, keep the delay. -/
def onPullSuccess (s : RetryState) : RetryState := ⟨0, s.retry_delay⟩

/-- C9: each pull failure increments the counter; when the incremented
counter reaches the ceiling (3) the delay is doubled, capped at 300 s, and
the counter resets to 0; any success resets the counter to 0; and from the
initial state (counter 0, delay 30 s), three consecutive failures leave the
delay at 60 s and the counter at 0. -/
theorem retry_backoff_spec (s : RetryState) :
    onPullSuccess s = ⟨0, s.retry_delay⟩ ∧
    (s.pull_retry_count + 1 < max_retries →
      onPullFailure s = ⟨s.pull_retry_count + 1, s.retry_delay⟩) ∧
    (max_retries ≤ s.pull_retry_count + 1 →
      onPullFailure s = ⟨0, min (s.retry_delay * 2) max_retry_delay⟩) ∧
    onPullFailure (onPullFailure (onPullFailure initRetryState)) = ⟨0, 60⟩ := by
  refine ⟨rfl, ?_, ?_, by decide⟩
  · intro h
    unfold onPullFailure
    rw [if_neg (by omega)]
  · intro h
    unfold onPullFailure
    rw [if_pos h]

/-- Witness for C9: after two failures from the initial state the counter is
2 and the delay is still 30 s (the ceiling has not yet been hit). -/
theorem retry_backoff_spec_witness :
    onPullFailure ⟨1, 30⟩ = ⟨1 + 1, 30⟩ :=
  (retry_backoff_spec ⟨1, 30⟩).2.1 (by decide)

end SyncEngine

namespace ConflictHandler

/-- `ConflictHandler.CONFLICT_MARKER_START` (conflict_handler.py line 18). -/
def CONFLICT_MARKER_START : List Char := "<<<<<<< HEAD".toList

/-- `ConflictHandler.CONFLICT_MARKER_MIDDLE` (line 19). -/
def CONFLICT_MARKER_MIDDLE : List Char := "=======".toList

/-- `ConflictHandler.CONFLICT_MARKER_END` (line 20). -/
def CONFLICT_MARKER_END : List Char := ">>>>>>>".toList

/-- Python's substring test `pat in l` on character sequences. -/
def containsSub (pat : List Char) : List Char → Bool
  | [] => pat.isEmpty
  | c :: t => pat.isPrefixOf (c :: t) || containsSub pat t

/-- `containsSub` decides the infix relation. -/
theorem containsSub_iff (pat l : List Char) : containsSub pat l = true ↔ pat <:+: l := by
  induction l with
  | nil => simp [containsSub, List.isEmpty_iff, List.infix_nil]
  | cons c t ih =>
    simp [containsSub, List.infix_cons_iff, List.isPrefixOf_iff_prefix, ih]

/-- `ConflictHandler.detect_conflicts_in_file` (lines 22-36) applied to the
file's character content: three independent Python `in` substring tests,
combined with `and`. -/
def detect_conflicts_in_file (content : List Char) : Bool :=
  containsSub CONFLICT_MARKER_START content &&
  containsSub CONFLICT_MARKER_MIDDLE content &&
  containsSub CONFLICT_MARKER_END content

/-- A line "contains the conflict-start marker" (Python `MARKER in line`). -/
def isStartMarkerLine (l : List Char) : Bool := containsSub CONFLICT_MARKER_START l

/-- A line containing the conflict-middle marker. -/
def isMiddleMarkerLine (l : List Char) : Bool := containsSub CONFLICT_MARKER_MIDDLE l

/-- A line containing the conflict-end marker. -/
def isEndMarkerLine (l : List Char) : Bool := containsSub CONFLICT_MARKER_END l

/-- Split character content into newline-separated lines (accumulator holds
the current line reversed). -/
def splitLinesAux : List Char → List Char → List (List Char)
  | [], acc => [acc.reverse]
  | c :: rest, acc =>
    if c = '\n' then acc.reverse :: splitLinesAux rest []
    else splitLinesAux rest (c :: acc)

/-- Split content into lines. -/
def splitLines (content : List Char) : List (List Char) :=
  splitLinesAux content []

/-- Modelled from the spec: "a conflict-middle marker line and a
conflict-end marker line appearing in that order" — some line contains the
middle marker and a strictly later line contains the end marker. -/
def middleThenEnd : List (List Char) → Bool
  | [] => false
  | l :: rest => (isMiddleMarkerLine l && rest.any isEndMarkerLine) || middleThenEnd rest

/-- Modelled from the spec: the file "contains, in order, a conflict-start
marker line, a conflict-middle marker line, and a conflict-end marker
line". -/
def markersInOrder : List (List Char) → Bool
  | [] => false
  | l :: rest => (isStartMarkerLine l && middleThenEnd rest) || markersInOrder rest

/-- Every line produced by `splitLinesAux` is an infix of the processed
content (with the pending accumulator restored in front). -/
theorem mem_splitLinesAux_infix :
    ∀ (content acc l : List Char), l ∈ splitLinesAux content acc →
      l <:+: (acc.reverse ++ content) := by
  intro content
  induction content with
  | nil =>
    intro acc l hl
    simp only [splitLinesAux, List.mem_singleton] at hl
    subst hl
    simp
  | cons c rest ih =>
    intro acc l hl
    by_cases hc : c = '\n'
    · simp only [splitLinesAux, hc, if_true, List.mem_cons] at hl
      rcases hl with h | h
      · subst h
        exact (List.prefix_append acc.reverse (c :: rest)).isInfix
      · have h1 : l <:+: rest := by simpa using ih [] l h
        have h2 : rest <:+ acc.reverse ++ c :: rest :=
          (List.suffix_cons c rest).trans (List.suffix_append acc.reverse (c :: rest))
        exact h1.trans h2.isInfix
    · simp only [splitLinesAux, hc, if_false] at hl
      have := ih (c :: acc) l hl
      simpa [List.append_assoc] using this

/-- If `middleThenEnd` holds, some line contains the middle marker and some
line contains the end marker. -/
theorem middleThenEnd_exists :
    ∀ ls, middleThenEnd ls = true →
      (∃ a ∈ ls, isMiddleMarkerLine a = true) ∧ (∃ b ∈ ls, isEndMarkerLine b = true) := by
  intro ls
  induction ls with
  | nil => simp [middleThenEnd]
  | cons l rest ih =>
    intro h
    simp only [middleThenEnd, Bool.or_eq_true, Bool.and_eq_true] at h
    rcases h with ⟨hm, he⟩ | h
    · obtain ⟨b, hb, hbe⟩ := List.any_eq_true.mp he
      exact ⟨⟨l, by simp, hm⟩, ⟨b, by simp [hb], hbe⟩⟩
    · obtain ⟨⟨a, ha, ham⟩, ⟨b, hb, hbe⟩⟩ := ih h
      exact ⟨⟨a, by simp [ha], ham⟩, ⟨b, by simp [hb], hbe⟩⟩

/-- If `markersInOrder` holds, each of the three markers occurs on some
line. -/
theorem markersInOrder_exists :
    ∀ ls, markersInOrder ls = true →
      (∃ a ∈ ls, isStartMarkerLine a = true) ∧
      (∃ b ∈ ls, isMiddleMarkerLine b = true) ∧
      (∃ e ∈ ls, isEndMarkerLine e = true) := by
  intro ls
  induction ls with
  | nil => simp [markersInOrder]
  | cons l rest ih =>
    intro h
    simp only [markersInOrder, Bool.or_eq_true, Bool.and_eq_true] at h
    rcases h with ⟨hs, hme⟩ | h
    · obtain ⟨⟨b, hb, hbm⟩, ⟨e, he, hee⟩⟩ := middleThenEnd_exists rest hme
      exact ⟨⟨l, by simp, hs⟩, ⟨b, by simp [hb], hbm⟩, ⟨e, by simp [he], hee⟩⟩
    · obtain ⟨⟨a, ha, has⟩, ⟨b, hb, hbm⟩, ⟨e, he, hee⟩⟩ := ih h
      exact ⟨⟨a, by simp [ha], has⟩, ⟨b, by simp [hb], hbm⟩, ⟨e, by simp [he], hee⟩⟩

/-- Counterexample for C5: a file whose end-marker line precedes the
middle-marker line, which precedes the start-marker line.  All three markers
occur, so `detect_conflicts_in_file` reports a conflict, although the
markers do not appear in the claimed start/middle/end order. -/
theorem detect_conflicts_order_counterexample :
    detect_conflicts_in_file (String.toList ">>>>>>>\n=======\n<<<<<<< HEAD") = true ∧
    markersInOrder (splitLines (String.toList ">>>>>>>\n=======\n<<<<<<< HEAD")) = false := by
  decide

/-- C5 amended: detection reports a conflict iff each of the three markers
occurs *somewhere* in the file as a substring, with no constraint on their
order (or on line structure); in particular, markers appearing in the
correct order on distinct lines do imply detection, but detection does not
imply order. -/
theorem detect_conflicts_spec (content : List Char) :
    (detect_conflicts_in_file content = true ↔
      (CONFLICT_MARKER_START <:+: content ∧ CONFLICT_MARKER_MIDDLE <:+: content ∧
        CONFLICT_MARKER_END <:+: content)) ∧
    (markersInOrder (splitLines content) = true → detect_conflicts_in_file content = true) := by
  constructor
  · simp [detect_conflicts_in_file, containsSub_iff, and_assoc]
  · intro h
    obtain ⟨⟨a, ha, has⟩, ⟨b, hb, hbm⟩, ⟨e, he, hee⟩⟩ :=
      markersInOrder_exists (splitLines content) h
    have hS : CONFLICT_MARKER_START <:+: content :=
      ((containsSub_iff _ _).mp has).trans (by simpa using mem_splitLinesAux_infix content [] a ha)
    have hM : CONFLICT_MARKER_MIDDLE <:+: content :=
      ((containsSub_iff _ _).mp hbm).trans (by simpa using mem_splitLinesAux_infix content [] b hb)
    have hE : CONFLICT_MARKER_END <:+: content :=
      ((containsSub_iff _ _).mp hee).trans (by simpa using mem_splitLinesAux_infix content [] e he)
    simp [detect_conflicts_in_file, containsSub_iff, hS, hM, hE]

/-- Witness for C5 amended: markers on three lines in the correct order are
detected. -/
theorem detect_conflicts_spec_witness :
    detect_conflicts_in_file (String.toList "<<<<<<< HEAD\nours\n=======\ntheirs\n>>>>>>> b") =
      true :=
  (detect_conflicts_spec
    (String.toList "<<<<<<< HEAD\nours\n=======\ntheirs\n>>>>>>> b")).2 (by decide)

end ConflictHandler

namespace ConflictHandler

/-- A parsed conflict block (`parse_conflict`'s dict, conflict_handler.py
lines 54-73): start/end line indices plus the two sides' lines (the
constant `file` field is omitted). -/
structure Conflict where
  start_line : Nat
  ours : List (List Char)
  theirs : List (List Char)
  end_line : Nat
  deriving DecidableEq, Repr

/-- The "ours" lines gathered by the inner while loop at lines 63-65: the
lines after the start marker up to (excluding) the first middle-marker
line. -/
def oursOf (rest : List (List Char)) : List (List Char) :=
  rest.takeWhile fun x => !(isMiddleMarkerLine x)

/-- The lines after the middle marker has been skipped (`i += 1`, line
67). -/
def afterMiddle (rest : List (List Char)) : List (List Char) :=
  (rest.dropWhile fun x => !(isMiddleMarkerLine x)).drop 1

/-- The "theirs" lines gathered by the loop at lines 69-71. -/
def theirsOf (rest : List (List Char)) : List (List Char) :=
  (afterMiddle rest).takeWhile fun x => !(isEndMarkerLine x)

/-- The lines strictly after the end-marker line (the outer `i += 1` at
line 76 moves past `end_line`). -/
def afterEnd (rest : List (List Char)) : List (List Char) :=
  ((afterMiddle rest).dropWhile fun x => !(isEndMarkerLine x)).drop 1

theorem afterEnd_length_le (rest : List (List Char)) :
    (afterEnd rest).length ≤ rest.length := by
  have h1 : (rest.dropWhile fun x => !(isMiddleMarkerLine x)).length ≤ rest.length :=
    (List.dropWhile_sublist _).length_le
  have h2 := List.length_drop 1 (rest.dropWhile fun x => !(isMiddleMarkerLine x))
  have h3 : ((afterMiddle rest).dropWhile fun x => !(isEndMarkerLine x)).length ≤
      (afterMiddle rest).length := (List.dropWhile_sublist _).length_le
  have h4 := List.length_drop 1 ((afterMiddle rest).dropWhile fun x => !(isEndMarkerLine x))
  unfold afterEnd
  unfold afterMiddle at h3 h4 ⊢
  omega

/-- `ConflictHandler.parse_conflict` (lines 38-82) on the file's lines,
carrying the current line index `i`.  On a start-marker line it collects
"ours" until a middle-marker line, skips it, collects "theirs" until an
end-marker line, records `end_line` (the index the Python loop variable
holds there: the end marker's index, or past the end when markers are
missing), and resumes scanning after `end_line`. -/
def parse_conflict : List (List Char) → Nat → List Conflict
  | [], _ => []
  | l :: rest, i =>
    if isStartMarkerLine l then
      ⟨i, oursOf rest, theirsOf rest,
        i + 1 + (oursOf rest).length + 1 + (theirsOf rest).length⟩ ::
        parse_conflict (afterEnd rest)
          (i + 1 + (oursOf rest).length + 1 + (theirsOf rest).length + 1)
    else parse_conflict rest (i + 1)
termination_by l _ => l.length
decreasing_by
  · simp only [List.length_cons]
    have := afterEnd_length_le rest
    omega
  · simp only [List.length_cons]
    omega

/-- The rewriting loop of `resolve_conflict_ours` (lines 103-112): walk the
line index `i`; when it equals the next conflict's `start_line`, emit that
conflict's "ours" lines and jump past its `end_line`; otherwise copy the
line. -/
def resolveOursGo (lines : List (List Char)) : Nat → List Conflict → List (List Char)
  | i, conflicts =>
    if h : i < lines.length then
      match conflicts with
      | [] => lines.get ⟨i, h⟩ :: resolveOursGo lines (i + 1) []
      | c :: cs =>
        if i = c.start_line then
          c.ours ++ resolveOursGo lines (c.end_line + 1) cs
        else
          lines.get ⟨i, h⟩ :: resolveOursGo lines (i + 1) (c :: cs)
    else []
termination_by i conflicts => (conflicts.length, lines.length - i)
decreasing_by
  all_goals
    first
      | (apply Prod.Lex.left
         simp only [List.length_cons]
         omega)
      | (apply Prod.Lex.right
         omega)

/-- `ConflictHandler.resolve_conflict_ours` (lines 84-124) on the file's
lines: returns the rewritten lines and the number of conflicts reported
resolved.  When `parse_conflict` finds nothing the file is returned
untouched with count 0 (the "No conflicts found" early return). -/
def resolve_conflict_ours (lines : List (List Char)) : List (List Char) × Nat :=
  if (parse_conflict lines 0).isEmpty then (lines, 0)
  else (resolveOursGo lines 0 (parse_conflict lines 0), (parse_conflict lines 0).length)

/-- A line free of all three conflict markers. -/
def noMarkers (l : List Char) : Bool :=
  !(isStartMarkerLine l) && !(isMiddleMarkerLine l) && !(isEndMarkerLine l)

/-- A well-formed conflicted file, as a sequence of chunks: runs of plain
lines and conflict blocks
`start-marker line, "ours" lines, middle-marker line, "theirs" lines,
end-marker line`. -/
inductive Chunk where
  | plain (ls : List (List Char))
  | block (st : List Char) (ours : List (List Char)) (m : List Char)
      (theirs : List (List Char)) (e : List Char)
  deriving Repr

/-- Well-formedness of one chunk: plain runs and both sides of a block are
marker-free, and the three delimiter lines carry their markers. -/
def chunkWFb : Chunk → Bool
  | .plain ls => ls.all noMarkers
  | .block st ours m t e =>
    isStartMarkerLine st && ours.all noMarkers && isMiddleMarkerLine m &&
      t.all noMarkers && isEndMarkerLine e

/-- The file's lines denoted by a chunk sequence. -/
def render : List Chunk → List (List Char)
  | [] => []
  | .plain ls :: cs => ls ++ render cs
  | .block st ours m t e :: cs => st :: (ours ++ m :: (t ++ e :: render cs))

/-- The lines left after resolving every block to its "ours" side. -/
def resolvedRender : List Chunk → List (List Char)
  | [] => []
  | .plain ls :: cs => ls ++ resolvedRender cs
  | .block _ ours _ _ _ :: cs => ours ++ resolvedRender cs

/-- The number of conflict blocks in a chunk sequence. -/
def numBlocks : List Chunk → Nat
  | [] => 0
  | .plain _ :: cs => numBlocks cs
  | .block _ _ _ _ _ :: cs => 1 + numBlocks cs

/-- The conflict records `parse_conflict` produces for a well-formed chunk
sequence whose first line sits at index `i`. -/
def expectedConflicts : List Chunk → Nat → List Conflict
  | [], _ => []
  | .plain ls :: cs, i => expectedConflicts cs (i + ls.length)
  | .block _ ours _ t _ :: cs, i =>
    ⟨i, ours, t, i + 1 + ours.length + 1 + t.length⟩ ::
      expectedConflicts cs (i + 1 + ours.length + 1 + t.length + 1)

theorem noMarkers_start {l : List Char} (h : noMarkers l = true) :
    isStartMarkerLine l = false := by
  simp only [noMarkers, Bool.and_eq_true, Bool.not_eq_true'] at h
  exact h.1.1

theorem noMarkers_middle {l : List Char} (h : noMarkers l = true) :
    isMiddleMarkerLine l = false := by
  simp only [noMarkers, Bool.and_eq_true, Bool.not_eq_true'] at h
  exact h.1.2

theorem noMarkers_end {l : List Char} (h : noMarkers l = true) :
    isEndMarkerLine l = false := by
  simp only [noMarkers, Bool.and_eq_true, Bool.not_eq_true'] at h
  exact h.2

theorem takeWhile_append_of_all {α : Type} (p : α → Bool) (l r : List α)
    (h : ∀ x ∈ l, p x = true) : (l ++ r).takeWhile p = l ++ r.takeWhile p := by
  induction l with
  | nil => simp
  | cons a t ih =>
    have ha : p a = true := h a (by simp)
    simp only [List.cons_append, List.takeWhile_cons, ha, if_true]
    rw [ih fun x hx => h x (by simp [hx])]

theorem dropWhile_append_of_all {α : Type} (p : α → Bool) (l r : List α)
    (h : ∀ x ∈ l, p x = true) : (l ++ r).dropWhile p = r.dropWhile p := by
  induction l with
  | nil => simp
  | cons a t ih =>
    have ha : p a = true := h a (by simp)
    simp only [List.cons_append, List.dropWhile_cons, ha, if_true]
    exact ih fun x hx => h x (by simp [hx])

theorem oursOf_block (ours : List (List Char)) (m : List Char) (rest : List (List Char))
    (ho : ∀ l ∈ ours, noMarkers l = true) (hm : isMiddleMarkerLine m = true) :
    oursOf (ours ++ m :: rest) = ours := by
  unfold oursOf
  rw [takeWhile_append_of_all _ ours _ fun x hx => by simp [noMarkers_middle (ho x hx)]]
  simp [List.takeWhile_cons, hm]

theorem afterMiddle_block (ours : List (List Char)) (m : List Char) (rest : List (List Char))
    (ho : ∀ l ∈ ours, noMarkers l = true) (hm : isMiddleMarkerLine m = true) :
    afterMiddle (ours ++ m :: rest) = rest := by
  unfold afterMiddle
  rw [dropWhile_append_of_all _ ours _ fun x hx => by simp [noMarkers_middle (ho x hx)]]
  simp [List.dropWhile_cons, hm]

theorem theirsOf_block (ours : List (List Char)) (m : List Char)
    (t : List (List Char)) (e : List Char) (rest : List (List Char))
    (ho : ∀ l ∈ ours, noMarkers l = true) (hm : isMiddleMarkerLine m = true)
    (ht : ∀ l ∈ t, noMarkers l = true) (he : isEndMarkerLine e = true) :
    theirsOf (ours ++ m :: (t ++ e :: rest)) = t := by
  unfold theirsOf
  rw [afterMiddle_block ours m _ ho hm]
  rw [takeWhile_append_of_all _ t _ fun x hx => by simp [noMarkers_end (ht x hx)]]
  simp [List.takeWhile_cons, he]

theorem afterEnd_block (ours : List (List Char)) (m : List Char)
    (t : List (List Char)) (e : List Char) (rest : List (List Char))
    (ho : ∀ l ∈ ours, noMarkers l = true) (hm : isMiddleMarkerLine m = true)
    (ht : ∀ l ∈ t, noMarkers l = true) (he : isEndMarkerLine e = true) :
    afterEnd (ours ++ m :: (t ++ e :: rest)) = rest := by
  unfold afterEnd
  rw [afterMiddle_block ours m _ ho hm]
  rw [dropWhile_append_of_all _ t _ fun x hx => by simp [noMarkers_end (ht x hx)]]
  simp [List.dropWhile_cons, he]

theorem parse_conflict_cons_false (l : List Char) (rest : List (List Char)) (i : Nat)
    (h : isStartMarkerLine l = false) :
    parse_conflict (l :: rest) i = parse_conflict rest (i + 1) := by
  rw [parse_conflict.eq_2, if_neg (by simp [h])]

theorem parse_conflict_cons_true (l : List Char) (rest : List (List Char)) (i : Nat)
    (h : isStartMarkerLine l = true) :
    parse_conflict (l :: rest) i =
      ⟨i, oursOf rest, theirsOf rest,
        i + 1 + (oursOf rest).length + 1 + (theirsOf rest).length⟩ ::
        parse_conflict (afterEnd rest)
          (i + 1 + (oursOf rest).length + 1 + (theirsOf rest).length + 1) := by
  rw [parse_conflict.eq_2, if_pos h]

/-- A run of start-marker-free lines in front of the input shifts the parse
by its length. -/
theorem parse_conflict_skip (ls : List (List Char)) :
    ∀ (rest : List (List Char)) (i : Nat), (∀ l ∈ ls, isStartMarkerLine l = false) →
      parse_conflict (ls ++ rest) i = parse_conflict rest (i + ls.length) := by
  induction ls with
  | nil => intro rest i _; simp
  | cons a t ih =>
    intro rest i h
    rw [List.cons_append, parse_conflict_cons_false a _ i (h a (by simp))]
    rw [ih rest (i + 1) fun x hx => h x (by simp [hx])]
    congr 1
    simp [List.length_cons]
    omega

/-- `parse_conflict` on lines none of which contains the start marker finds
nothing. -/
theorem parse_conflict_no_start (lines : List (List Char)) :
    ∀ i : Nat, (∀ l ∈ lines, isStartMarkerLine l = false) →
      parse_conflict lines i = [] := by
  induction lines with
  | nil => intro i _; exact parse_conflict.eq_1 i
  | cons a t ih =>
    intro i h
    rw [parse_conflict_cons_false a t i (h a (by simp))]
    exact ih (i + 1) fun x hx => h x (by simp [hx])

/-- `parse_conflict` on a rendered well-formed chunk sequence produces
exactly the expected conflict records. -/
theorem parse_conflict_render (chunks : List Chunk) :
    ∀ i : Nat, chunks.all chunkWFb = true →
      parse_conflict (render chunks) i = expectedConflicts chunks i := by
  induction chunks with
  | nil => intro i _; exact parse_conflict.eq_1 i
  | cons ch cs ih =>
    intro i hwf
    simp only [List.all_cons, Bool.and_eq_true] at hwf
    obtain ⟨hch, hcs⟩ := hwf
    cases ch with
    | plain ls =>
      simp only [chunkWFb, List.all_eq_true] at hch
      rw [show render (Chunk.plain ls :: cs) = ls ++ render cs from rfl]
      rw [parse_conflict_skip ls (render cs) i fun l hl => noMarkers_start (hch l hl)]
      exact ih (i + ls.length) hcs
    | block st ours m t e =>
      simp only [chunkWFb, Bool.and_eq_true, List.all_eq_true] at hch
      obtain ⟨⟨⟨⟨hst, ho⟩, hm⟩, ht⟩, he⟩ := hch
      rw [show render (Chunk.block st ours m t e :: cs) =
        st :: (ours ++ m :: (t ++ e :: render cs)) from rfl]
      rw [parse_conflict_cons_true st _ i hst]
      rw [oursOf_block ours m _ ho hm, theirsOf_block ours m t e _ ho hm ht he,
        afterEnd_block ours m t e _ ho hm ht he]
      rw [ih _ hcs]
      rfl

/-- Every expected conflict starts at or after the base index. -/
theorem expectedConflicts_start_le (chunks : List Chunk) :
    ∀ (i : Nat) (c : Conflict), c ∈ expectedConflicts chunks i → i ≤ c.start_line := by
  induction chunks with
  | nil => intro i c hc; simp [expectedConflicts] at hc
  | cons ch cs ih =>
    intro i c hc
    cases ch with
    | plain ls =>
      have := ih (i + ls.length) c hc
      omega
    | block st ours m t e =>
      simp only [expectedConflicts, List.mem_cons] at hc
      rcases hc with hc | hc
      · subst hc; rfl
      · have := ih _ c hc
        omega

/-- The expected conflicts are in bijection with the blocks. -/
theorem expectedConflicts_length (chunks : List Chunk) :
    ∀ i : Nat, (expectedConflicts chunks i).length = numBlocks chunks := by
  induction chunks with
  | nil => intro i; rfl
  | cons ch cs ih =>
    intro i
    cases ch with
    | plain ls => exact ih (i + ls.length)
    | block st ours m t e =>
      simp only [expectedConflicts, numBlocks, List.length_cons, ih]
      omega

theorem resolveOursGo_stop (lines : List (List Char)) (i : Nat) (conflicts : List Conflict)
    (h : ¬ i < lines.length) : resolveOursGo lines i conflicts = [] := by
  rw [resolveOursGo.eq_1, dif_neg h]

theorem resolveOursGo_nil (lines : List (List Char)) (i : Nat) (h : i < lines.length) :
    resolveOursGo lines i [] = lines.get ⟨i, h⟩ :: resolveOursGo lines (i + 1) [] := by
  rw [resolveOursGo.eq_1, dif_pos h]

theorem resolveOursGo_hit (lines : List (List Char)) (i : Nat) (c : Conflict)
    (cs : List Conflict) (h : i < lines.length) (he : i = c.start_line) :
    resolveOursGo lines i (c :: cs) = c.ours ++ resolveOursGo lines (c.end_line + 1) cs := by
  rw [resolveOursGo.eq_1, dif_pos h]
  simp [he]

theorem resolveOursGo_miss (lines : List (List Char)) (i : Nat) (c : Conflict)
    (cs : List Conflict) (h : i < lines.length) (hne : ¬ i = c.start_line) :
    resolveOursGo lines i (c :: cs) =
      lines.get ⟨i, h⟩ :: resolveOursGo lines (i + 1) (c :: cs) := by
  rw [resolveOursGo.eq_1, dif_pos h]
  simp [hne]

theorem get_append_cons (pre : List (List Char)) (x : List Char) (suf : List (List Char))
    (h : pre.length < (pre ++ x :: suf).length) :
    (pre ++ x :: suf).get ⟨pre.length, h⟩ = x := by
  rw [List.get_eq_getElem, List.getElem_append_right (Nat.le_refl pre.length)]
  simp

/-- The rewriting loop copies a run of lines verbatim as long as every
remaining conflict starts at or after the end of the run. -/
theorem resolveOursGo_copy_seg (ls : List (List Char)) :
    ∀ (pre suf : List (List Char)) (conflicts : List Conflict),
      (∀ c ∈ conflicts, pre.length + ls.length ≤ c.start_line) →
      resolveOursGo (pre ++ (ls ++ suf)) pre.length conflicts =
        ls ++ resolveOursGo (pre ++ (ls ++ suf)) (pre.length + ls.length) conflicts := by
  induction ls with
  | nil =>
    intro pre suf conflicts _
    simp
  | cons x xs ih =>
    intro pre suf conflicts h
    have hlt : pre.length < (pre ++ (x :: xs ++ suf)).length := by
      simp [List.length_append]
    have hget : (pre ++ (x :: xs ++ suf)).get ⟨pre.length, hlt⟩ = x :=
      get_append_cons pre x (xs ++ suf) hlt
    have hstep : resolveOursGo (pre ++ (x :: xs ++ suf)) pre.length conflicts =
        x :: resolveOursGo (pre ++ (x :: xs ++ suf)) (pre.length + 1) conflicts := by
      cases conflicts with
      | nil => rw [resolveOursGo_nil _ _ hlt, hget]
      | cons c cs =>
        have hne : ¬ pre.length = c.start_line := by
          have := h c (by simp)
          simp only [List.length_cons] at this
          omega
        rw [resolveOursGo_miss _ _ _ _ hlt hne, hget]
    rw [hstep]
    have hre : pre ++ (x :: xs ++ suf) = (pre ++ [x]) ++ (xs ++ suf) := by simp
    have harg : pre.length + 1 = (pre ++ [x]).length := by simp
    rw [hre, harg,
      ih (pre ++ [x]) suf conflicts (by
        intro c hc
        have := h c hc
        simp only [List.length_append, List.length_cons, List.length_nil] at this ⊢
        omega)]
    have harg2 : (pre ++ [x]).length + xs.length = pre.length + (x :: xs).length := by
      simp only [List.length_append, List.length_cons, List.length_nil]
      omega
    rw [harg2]
    simp

/-- The rewriting loop, run on a rendered well-formed chunk sequence placed
after an arbitrary prefix and fed the expected conflicts, produces exactly
the "ours"-resolved rendering. -/
theorem resolveOursGo_render (chunks : List Chunk) :
    ∀ pre : List (List Char), chunks.all chunkWFb = true →
      resolveOursGo (pre ++ render chunks) pre.length (expectedConflicts chunks pre.length) =
        resolvedRender chunks := by
  induction chunks with
  | nil =>
    intro pre _
    have h : ¬ pre.length < (pre ++ render []).length := by
      simp [render]
    rw [resolveOursGo_stop _ _ _ h]
    rfl
  | cons ch cs ih =>
    intro pre hwf
    simp only [List.all_cons, Bool.and_eq_true] at hwf
    obtain ⟨hch, hcs⟩ := hwf
    cases ch with
    | plain ls =>
      rw [show render (Chunk.plain ls :: cs) = ls ++ render cs from rfl,
        show expectedConflicts (Chunk.plain ls :: cs) pre.length =
          expectedConflicts cs (pre.length + ls.length) from rfl]
      rw [resolveOursGo_copy_seg ls pre (render cs) _ (by
        intro c hc
        exact expectedConflicts_start_le cs _ c hc)]
      have hre : pre ++ (ls ++ render cs) = (pre ++ ls) ++ render cs := by simp
      have harg : pre.length + ls.length = (pre ++ ls).length := by simp
      rw [hre, harg, ih (pre ++ ls) hcs]
      rfl
    | block st ours m t e =>
      rw [show render (Chunk.block st ours m t e :: cs) =
        st :: (ours ++ m :: (t ++ e :: render cs)) from rfl]
      rw [show expectedConflicts (Chunk.block st ours m t e :: cs) pre.length =
        ⟨pre.length, ours, t, pre.length + 1 + ours.length + 1 + t.length⟩ ::
          expectedConflicts cs (pre.length + 1 + ours.length + 1 + t.length + 1) from rfl]
      have hlt : pre.length < (pre ++ st :: (ours ++ m :: (t ++ e :: render cs))).length := by
        simp [List.length_append]
      rw [resolveOursGo_hit _ _ _ _ hlt rfl]
      have hre : pre ++ st :: (ours ++ m :: (t ++ e :: render cs)) =
          (pre ++ st :: (ours ++ m :: (t ++ [e]))) ++ render cs := by
        simp
      have harg : pre.length + 1 + ours.length + 1 + t.length + 1 =
          (pre ++ st :: (ours ++ m :: (t ++ [e]))).length := by
        simp only [List.length_append, List.length_cons, List.length_nil,
          List.length_singleton]
        omega
      rw [show (⟨pre.length, ours, t,
          pre.length + 1 + ours.length + 1 + t.length⟩ : Conflict).end_line + 1 =
        pre.length + 1 + ours.length + 1 + t.length + 1 from rfl]
      rw [hre, harg, ih (pre ++ st :: (ours ++ m :: (t ++ [e]))) hcs]
      rfl

/-- All lines of the resolved rendering are marker-free. -/
theorem resolvedRender_noMarkers (chunks : List Chunk) :
    chunks.all chunkWFb = true →
      ∀ l ∈ resolvedRender chunks, noMarkers l = true := by
  induction chunks with
  | nil => intro _ l hl; simp [resolvedRender] at hl
  | cons ch cs ih =>
    intro hwf l hl
    simp only [List.all_cons, Bool.and_eq_true] at hwf
    obtain ⟨hch, hcs⟩ := hwf
    cases ch with
    | plain ls =>
      simp only [chunkWFb, List.all_eq_true] at hch
      simp only [resolvedRender, List.mem_append] at hl
      rcases hl with hl | hl
      · exact hch l hl
      · exact ih hcs l hl
    | block st ours m t e =>
      simp only [chunkWFb, Bool.and_eq_true, List.all_eq_true] at hch
      obtain ⟨⟨⟨⟨_, ho⟩, _⟩, _⟩, _⟩ := hch
      simp only [resolvedRender, List.mem_append] at hl
      rcases hl with hl | hl
      · exact ho l hl
      · exact ih hcs l hl

/-- A chunk sequence with no blocks renders to its resolved rendering. -/
theorem resolvedRender_of_no_blocks (chunks : List Chunk) :
    numBlocks chunks = 0 → resolvedRender chunks = render chunks := by
  induction chunks with
  | nil => intro _; rfl
  | cons ch cs ih =>
    intro h
    cases ch with
    | plain ls =>
      simp only [numBlocks] at h
      simp only [resolvedRender, render, ih h]
    | block st ours m t e =>
      simp only [numBlocks] at h
      omega

/-- C7: resolving with the `ours` strategy returns any file without a
conflict block (no line containing a start marker) byte-identical with
count 0; on a well-formed file with `numBlocks` blocks it replaces each
block by exactly its "ours" lines, leaves no marker line in the output,
reports the number of blocks resolved, and a second resolution of the
result changes nothing. -/
theorem resolve_conflict_ours_spec (chunks : List Chunk)
    (hwf : chunks.all chunkWFb = true) :
    resolve_conflict_ours (render chunks) = (resolvedRender chunks, numBlocks chunks) ∧
    (∀ l ∈ resolvedRender chunks, noMarkers l = true) ∧
    resolve_conflict_ours (resolvedRender chunks) = (resolvedRender chunks, 0) ∧
    (∀ lines : List (List Char), (∀ l ∈ lines, isStartMarkerLine l = false) →
      resolve_conflict_ours lines = (lines, 0)) := by
  have hgen : ∀ lines : List (List Char), (∀ l ∈ lines, isStartMarkerLine l = false) →
      resolve_conflict_ours lines = (lines, 0) := by
    intro lines h
    unfold resolve_conflict_ours
    rw [parse_conflict_no_start lines 0 h]
    rfl
  have hnm : ∀ l ∈ resolvedRender chunks, noMarkers l = true :=
    resolvedRender_noMarkers chunks hwf
  refine ⟨?_, hnm, hgen _ fun l hl => noMarkers_start (hnm l hl), hgen⟩
  unfold resolve_conflict_ours
  rw [parse_conflict_render chunks 0 hwf]
  by_cases hb : (expectedConflicts chunks 0).isEmpty = true
  · rw [if_pos hb]
    have h0 : numBlocks chunks = 0 := by
      rw [← expectedConflicts_length chunks 0]
      simp only [List.isEmpty_iff] at hb
      simp [hb]
    rw [resolvedRender_of_no_blocks chunks h0, h0]
  · rw [if_neg hb]
    have hres := resolveOursGo_render chunks [] hwf
    simp only [List.nil_append, List.length_nil] at hres
    rw [hres, expectedConflicts_length chunks 0]

/-- Witness for C7: a file `a / block(x | y) / b` resolves to `a x b` with
one block resolved. -/
theorem resolve_conflict_ours_spec_witness :
    resolve_conflict_ours (render
        [Chunk.plain [String.toList "a"],
         Chunk.block (String.toList "<<<<<<< HEAD") [String.toList "x"]
           (String.toList "=======") [String.toList "y"] (String.toList ">>>>>>>"),
         Chunk.plain [String.toList "b"]]) =
      (resolvedRender
        [Chunk.plain [String.toList "a"],
         Chunk.block (String.toList "<<<<<<< HEAD") [String.toList "x"]
           (String.toList "=======") [String.toList "y"] (String.toList ">>>>>>>"),
         Chunk.plain [String.toList "b"]],
       numBlocks
        [Chunk.plain [String.toList "a"],
         Chunk.block (String.toList "<<<<<<< HEAD") [String.toList "x"]
           (String.toList "=======") [String.toList "y"] (String.toList ">>>>>>>"),
         Chunk.plain [String.toList "b"]]) :=
  (resolve_conflict_ours_spec
    [Chunk.plain [String.toList "a"],
     Chunk.block (String.toList "<<<<<<< HEAD") [String.toList "x"]
       (String.toList "=======") [String.toList "y"] (String.toList ">>>>>>>"),
     Chunk.plain [String.toList "b"]] (by decide)).1

end ConflictHandler
